import Mathlib

/-!
Verification development for `download_docs.py`, a documentation mirroring
script.  The Python source is shallowly embedded: pure string and path
manipulation becomes Lean functions on `String`/`List Char`, the filesystem
becomes an explicit `FS` state threaded through the functions, and the two
network calls (`requests.get`) become an oracle `Net` mapping the concrete
request issued to its outcome.  Regular-expression extraction
(`re.findall`) is likewise an oracle, since the claims quantify over the
extracted match lists rather than over the regex engine.
-/

/-! ## Character-list utilities mirroring Python string primitives -/

/-- Model of Python `str.split(sep)` for a one-character separator, on the
underlying character list.  `''.split('/') == ['']` and `'a/'.split('/') ==
['a','']`, which this reproduces. -/
def splitChar (c : Char) : List Char → List (List Char)
  | [] => [[]]
  | a :: rest =>
    match splitChar c rest with
    | [] => [[]]
    | g :: gs => if a == c then [] :: g :: gs else (a :: g) :: gs

/-- Python `str.split(sep)` lifted to `String`. -/
def pySplit (c : Char) (s : String) : List String :=
  (splitChar c s.data).map String.mk

/-- Python `str.strip(c)`: remove the character from both ends. -/
def pyStrip (c : Char) (s : String) : String :=
  String.mk (((s.data.dropWhile (fun a => a == c)).reverse.dropWhile
    (fun a => a == c)).reverse)

/-- `true` iff the string starts with `'/'` — Python `b.startswith('/')`
specialised to the single-character separator used by `posixpath.join`. -/
def startsWithSlash (s : String) : Bool :=
  match s.data with
  | '/' :: _ => true
  | _ => false

/-- Last element of a character list is `'/'`. -/
def lastIsSlash : List Char → Bool
  | [] => false
  | [c] => c == '/'
  | _ :: c :: rest => lastIsSlash (c :: rest)

/-- `true` iff the string ends with `'/'` — Python `path.endswith('/')`. -/
def endsWithSlash (s : String) : Bool := lastIsSlash s.data

/-- One step of Python `posixpath.join`: how `os.path.join` (posix flavour)
absorbs one further component `b` into the accumulated `path`. -/
def joinOne (path b : String) : String :=
  if startsWithSlash b then b
  else if path = "" ∨ endsWithSlash path = true then path ++ b
  else path ++ "/" ++ b

/-- Python `os.path.join(a, *ps)` (posix). -/
def posixJoin (a : String) (ps : List String) : String :=
  ps.foldl joinOne a

/-- Plain slash-joined rendering of a component list (the spec's
"segments joined by separator"). -/
def joinSep : List String → String
  | [] => ""
  | [x] => x
  | x :: y :: xs => x ++ "/" ++ joinSep (y :: xs)

/-- The head part of `posixpath.dirname`: everything up to and including
the last slash. -/
def dirnameHead (p : String) : List Char :=
  (p.data.reverse.dropWhile (fun c => !(c == '/'))).reverse

/-- Python `posixpath.dirname`: everything before the last slash, with the
trailing slashes of that head stripped unless the head is all slashes. -/
def dirname (p : String) : String :=
  if (dirnameHead p).all (fun c => c == '/') then String.mk (dirnameHead p)
  else String.mk (((dirnameHead p).reverse.dropWhile (fun c => c == '/')).reverse)

/-- Python `posixpath.basename`: everything after the last slash. -/
def basename (p : String) : String :=
  String.mk (p.data.reverse.takeWhile (fun c => !(c == '/'))).reverse

/-- `true` iff `f` occurs as a contiguous prefix of `l` — Python
`str.startswith` on character lists, used to build substring search. -/
def leadsWith : List Char → List Char → Bool
  | [], _ => true
  | _ :: _, [] => false
  | a :: as, b :: bs => a == b && leadsWith as bs

/-- `true` iff `f` occurs contiguously inside `l` — Python's `f in u`
substring test on character lists. -/
def containsSub (f : List Char) : List Char → Bool
  | [] => leadsWith f []
  | x :: xs => leadsWith f (x :: xs) || containsSub f xs

/-! ## Model of `urllib.parse.urlparse(url).path`

Only the `path` attribute of the parse result is consumed by the script
(line 99-102).  For an absolute URL `scheme://netloc/path[?q][#f]` the path
is everything from the first slash after the authority, with query and
fragment stripped; a string with no `://` is treated as a bare path. -/

/-- Strip the fragment (after `#`) and query (after `?`) parts. -/
def dropFragmentQuery (l : List Char) : List Char :=
  (l.takeWhile (fun c => !(c == '#'))).takeWhile (fun c => !(c == '?'))

/-- Characters following the first `://`, if any. -/
def afterScheme : List Char → Option (List Char)
  | ':' :: '/' :: '/' :: rest => some rest
  | _ :: rest => afterScheme rest
  | [] => none

/-- Model of `urlparse(url).path`. -/
def urlPath (url : String) : String :=
  let l := dropFragmentQuery url.data
  match afterScheme l with
  | some rest => String.mk (rest.dropWhile (fun c => !(c == '/')))
  | none => String.mk l

/-! ## Filesystem model

Directories and files present on disk; `os.makedirs(p, exist_ok=True)`
records `p` and every ancestor in the chain, `open(..., 'w')` records the
file (later entries shadow earlier ones, giving overwrite semantics). -/

structure FS where
  dirs : List String
  files : List (String × String)
deriving DecidableEq

/-- Ancestor chain of a component list: joins of every nonempty prefix. -/
def parentChains (parts : List String) : List String :=
  (List.range parts.length).map (fun k => joinSep (parts.take (k + 1)))

/-- Model of `os.makedirs(p, exist_ok=True)`: `p` and every intermediate
directory come to exist; pre-existing entries are harmlessly duplicated
(existence is membership). -/
def makedirs (fs : FS) (p : String) : FS :=
  ⟨(p :: parentChains ((pySplit '/' p).dropLast)) ++ fs.dirs, fs.files⟩

/-- Model of writing a text file (full overwrite at that exact path). -/
def writeFile (fs : FS) (p t : String) : FS :=
  ⟨fs.dirs, (p, t) :: fs.files⟩

/-- Model of `os.path.exists`: a file or directory is present at `p`. -/
def pathExists (fs : FS) (p : String) : Bool :=
  fs.files.any (fun e => e.1 == p) || fs.dirs.any (fun d => d == p)

/-! ## `create_directory_structure` (download_docs.py lines 94-110) -/

/-- Embedding of `create_directory_structure(url, base_dir, source_name)`:
parse the URL, strip slashes from the path and split it, join all but the
last segment under `base_dir/source_name`, create that directory chain,
and return the full file path together with the updated filesystem. -/
def create_directory_structure (url base_dir source_name : String)
    (fs : FS) : String × FS :=
  let path_parts := pySplit '/' (pyStrip '/' (urlPath url))
  let dir_path := posixJoin base_dir (source_name :: path_parts.dropLast)
  let fs2 := makedirs fs dir_path
  let filename := path_parts.getLastD ""
  (posixJoin dir_path [filename], fs2)

/-- The returned file path of `create_directory_structure`, which does not
depend on the filesystem state. -/
def localTarget (url base_dir source_name : String) : String :=
  (create_directory_structure url base_dir source_name ⟨[], []⟩).1

/-! ## HTTP layer model (requests.get call sites) -/

/-- The observable parameters of one `requests.get` call. -/
structure HttpRequest where
  method : String
  url : String
  userAgent : String
  timeout : Nat
  allowRedirects : Bool
deriving DecidableEq

/-- Outcome of one retrieval: `failure` covers both a raised network error
and the `raise_for_status()` exception on a non-success HTTP status (both
are swallowed by the same `except` clause); `success` carries the body
text of a success response. -/
inductive HttpResponse where
  | failure
  | success (text : String)
deriving DecidableEq

/-- The network as an oracle from the request issued to its outcome. -/
abbrev Net := HttpRequest → HttpResponse

/-- Oracle for `re.findall(pattern, content)`: pattern and text to the
list of matches, in order of occurrence. -/
abbrev Findall := String → String → List String

/-- The fixed user-agent header value (lines 42, 119). -/
def USER_AGENT : String :=
  "Mozilla/5.0 (Windows NT 10.0; Win64; x64) AppleWebKit/537.36"

/-- The request issued by the index fetch (lines 45-50): GET with the
fixed user agent, `timeout=30`, and `allow_redirects=follow_redirects`. -/
def indexRequest (cfg_url : String) (follow_redirects : Bool) : HttpRequest :=
  ⟨"GET", cfg_url, USER_AGENT, 30, follow_redirects⟩

/-- The request issued by `download_file` (line 122):
`requests.get(url, headers=headers, timeout=30)`.  No `allow_redirects`
argument is passed, so the requests-library default for GET applies,
which is to follow redirects. -/
def downloadRequest (url : String) : HttpRequest :=
  ⟨"GET", url, USER_AGENT, 30, true⟩

/-! ## Source registry (lines 20-31) -/

structure SourceConfig where
  url : String
  pattern : String
  name : String
deriving DecidableEq

/-- The static `SOURCES` dictionary. -/
def SOURCES : List (String × SourceConfig) :=
  [("claude-docs",
    ⟨"https://docs.anthropic.com/llms.txt",
     "https://docs\\.claude\\.com/[^\\s\\)]+\\.md",
     "Claude Docs"⟩),
   ("claude-code",
    ⟨"https://code.claude.com/docs/llms.txt",
     "https://[^\\s\\)]+\\.md",
     "Claude Code Docs"⟩)]

/-- Dictionary lookup `SOURCES[source_name]`, `none` when the key is
absent (the `source_name in SOURCES` test). -/
def lookupSource (source_name : String) : Option SourceConfig :=
  (SOURCES.find? (fun p => p.1 == source_name)).map Prod.snd

/-! ## `fetch_urls_from_source` (lines 34-79) -/

/-- Embedding of `fetch_urls_from_source`: issue the index request; on
failure return the empty set (the exception handlers run before any URL
is added); on success extract matches with the source's pattern, keep
only matches containing a truthy filter string, and collect
`(url, source_name)` pairs into a set. -/
def fetch_urls_from_source (net : Net) (findall : Findall)
    (source_name : String) (source_config : SourceConfig)
    (filter_pattern : Option String) (follow_redirects : Bool) :
    Finset (String × String) :=
  match net (indexRequest source_config.url follow_redirects) with
  | HttpResponse.failure => ∅
  | HttpResponse.success content =>
      let ms := findall source_config.pattern content
      let ms := match filter_pattern with
        | some fp => if fp ≠ "" then
            ms.filter (fun (url : String) => containsSub fp.data url.data)
          else ms
        | none => ms
      (ms.map (fun url => (url, source_name))).toFinset

/-! ## `fetch_all_urls` (lines 82-91) -/

/-- Embedding of `fetch_all_urls`: fold over the requested source names,
unioning in the links of each name found in the registry and silently
passing over the rest. -/
def fetch_all_urls (net : Net) (findall : Findall) (sources : List String)
    (filter_pattern : Option String) (follow_redirects : Bool) :
    Finset (String × String) :=
  sources.foldl (fun all_urls source_name =>
    match lookupSource source_name with
    | some cfg => all_urls ∪ fetch_urls_from_source net findall
        source_name cfg filter_pattern follow_redirects
    | none => all_urls) ∅

/-- The contribution of one requested source name to `fetch_all_urls`. -/
def sourceLinks (net : Net) (findall : Findall)
    (filter_pattern : Option String) (follow_redirects : Bool)
    (source_name : String) : Finset (String × String) :=
  match lookupSource source_name with
  | some cfg => fetch_urls_from_source net findall source_name cfg
      filter_pattern follow_redirects
  | none => ∅

/-! ## `download_file` (lines 113-139) -/

/-- Embedding of `download_file`: issue the download request; on failure
return `false` leaving the filesystem unchanged; on success ensure the
parent directory exists, write the body, and return `true`.  (A
filesystem write error would also yield `false`; the oracle's `failure`
outcome covers every `False` path since no claim separates them.) -/
def download_file (net : Net) (url : String) (local_path : String)
    (fs : FS) : Bool × FS :=
  match net (downloadRequest url) with
  | HttpResponse.failure => (false, fs)
  | HttpResponse.success text =>
      (true, writeFile (makedirs fs (dirname local_path)) local_path text)

/-! ## Orchestrator loop (main, lines 223-253) -/

/-- Observable events of the download loop, in order: a skip of an
existing target, a download attempt with its outcome, and the
`time.sleep(0.5)` pacing pause (duration recorded in time units). -/
inductive Event where
  | skip (path : String)
  | attempt (url : String) (ok : Bool)
  | sleep (duration : ℚ)
deriving DecidableEq

/-- Result of the loop: the three counters, the final filesystem, and
the event trace. -/
structure RunResult where
  successful : Nat
  failed : Nat
  skipped : Nat
  fs : FS
  events : List Event
deriving DecidableEq

/-- Embedding of the `for` loop of `main` (lines 227-246): for each
`(url, source_name)` pair, compute the local path (creating its
directory chain), skip it when it already exists (`continue`, no pause),
otherwise attempt the download, count the outcome, and pause 0.5 time
units. -/
def runLoop (net : Net) (output : String) :
    List (String × String) → FS → RunResult
  | [], fs => ⟨0, 0, 0, fs, []⟩
  | (url, source_name) :: rest, fs =>
    let cds := create_directory_structure url output source_name fs
    if pathExists cds.2 cds.1 then
      let r := runLoop net output rest cds.2
      ⟨r.successful, r.failed, r.skipped + 1, r.fs,
        Event.skip cds.1 :: r.events⟩
    else
      let df := download_file net url cds.1 cds.2
      let r := runLoop net output rest df.2
      ⟨r.successful + (if df.1 then 1 else 0),
       r.failed + (if df.1 then 0 else 1), r.skipped, r.fs,
       Event.attempt url df.1 :: Event.sleep (1/2) :: r.events⟩

/-- Lexicographic order on `(url, source_name)` pairs — the order of
Python tuple comparison used by `sorted`. -/
def pairLe (a b : String × String) : Prop := toLex a ≤ toLex b

instance : DecidableRel pairLe :=
  fun a b => inferInstanceAs (Decidable (toLex a ≤ toLex b))

instance : IsTrans (String × String) pairLe :=
  ⟨fun _ _ _ h1 h2 => le_trans h1 h2⟩

instance : IsAntisymm (String × String) pairLe :=
  ⟨fun a b h1 h2 => by
    have h := le_antisymm h1 h2
    exact congrArg (fun x : Lex (String × String) => ofLex x) h⟩

instance : IsTotal (String × String) pairLe :=
  ⟨fun a b => le_total (toLex a) (toLex b)⟩

/-- `sorted(url_tuples)`: the canonical lexicographically sorted listing
of the aggregated set. -/
def sortPairs (s : Finset (String × String)) : List (String × String) :=
  s.sort pairLe

/-- Embedding of the iterate-download phase of `main` (lines 220-246):
create the output root, then run the loop over the sorted aggregated
set. -/
def mainLoop (net : Net) (output : String)
    (url_tuples : Finset (String × String)) (fs : FS) : RunResult :=
  runLoop net output (sortPairs url_tuples) (makedirs fs output)

/-- Pacing discipline of an event trace: every download attempt is
immediately followed by the 0.5 time-unit pause, and the pause occurs
nowhere else — in particular never after a skip. -/
def goodEvents : List Event → Bool
  | [] => true
  | Event.skip _ :: rest => goodEvents rest
  | Event.attempt _ _ :: Event.sleep d :: rest =>
      d == (1/2 : ℚ) && goodEvents rest
  | _ => false

/-! ## Supporting lemmas: strings and character lists -/

theorem str_data_ne_nil {s : String} (h : s ≠ "") : s.data ≠ [] := by
  intro hd
  exact h (String.ext hd)

theorem str_ne_empty_of_data {s : String} (h : s.data ≠ []) : s ≠ "" := by
  intro he
  rw [he] at h
  exact h rfl

theorem str_append_assoc (a b c : String) : a ++ b ++ c = a ++ (b ++ c) := by
  apply String.ext
  simp [String.data_append]

theorem splitChar_ne_nil (c : Char) : ∀ l : List Char, splitChar c l ≠ []
  | [] => by simp [splitChar]
  | a :: rest => by
    unfold splitChar
    cases h : splitChar c rest with
    | nil => simp
    | cons g gs =>
      by_cases hac : (a == c) = true <;> simp [hac]

theorem mem_splitChar_not_mem (c : Char) :
    ∀ (l : List Char) (g : List Char), g ∈ splitChar c l → c ∉ g := by
  intro l
  induction l with
  | nil =>
    intro g hg
    simp [splitChar] at hg
    simp [hg]
  | cons a rest ih =>
    intro g hg
    cases h : splitChar c rest with
    | nil => exact absurd h (splitChar_ne_nil c rest)
    | cons g0 gs =>
      unfold splitChar at hg
      rw [h] at hg
      change g ∈ (if a == c then [] :: g0 :: gs else (a :: g0) :: gs) at hg
      by_cases hac : (a == c) = true
      · rw [if_pos hac] at hg
        rcases List.mem_cons.mp hg with h1 | h2
        · simp [h1]
        · exact ih g (h ▸ h2)
      · rw [if_neg hac] at hg
        rcases List.mem_cons.mp hg with h1 | h2
        · subst h1
          intro hmem
          rcases List.mem_cons.mp hmem with h3 | h4
          · exact hac (by simp [h3])
          · exact ih g0 (h ▸ List.mem_cons_self g0 gs) h4
        · exact ih g (h ▸ List.mem_cons_of_mem g0 h2)

theorem pySplit_ne_nil (c : Char) (s : String) : pySplit c s ≠ [] := by
  unfold pySplit
  simp [splitChar_ne_nil]

theorem mem_pySplit_slash_free {c : Char} {s : String} {seg : String}
    (h : seg ∈ pySplit c s) : c ∉ seg.data := by
  unfold pySplit at h
  rcases List.mem_map.mp h with ⟨g, hg, rfl⟩
  exact mem_splitChar_not_mem c s.data g hg

theorem lastIsSlash_append (l₁ : List Char) {l₂ : List Char} (h : l₂ ≠ []) :
    lastIsSlash (l₁ ++ l₂) = lastIsSlash l₂ := by
  induction l₁ with
  | nil => rfl
  | cons a t ih =>
    have hne : t ++ l₂ ≠ [] := fun hx => h (List.append_eq_nil.mp hx).2
    obtain ⟨b, bs, hb⟩ := List.exists_cons_of_ne_nil hne
    rw [List.cons_append, hb]
    show lastIsSlash (b :: bs) = _
    rw [← hb, ih]

theorem lastIsSlash_of_mem : ∀ l : List Char, lastIsSlash l = true → '/' ∈ l
  | [], h => by simp [lastIsSlash] at h
  | [c], h => by
    simp [lastIsSlash] at h
    simp [h]
  | _ :: b :: t, h =>
    List.mem_cons_of_mem _ (lastIsSlash_of_mem (b :: t) h)

theorem lastIsSlash_false_getLast :
    ∀ (l : List Char) (h : l ≠ []), lastIsSlash l = false → l.getLast h ≠ '/'
  | [c], _, hf => by simpa [lastIsSlash] using hf
  | a :: b :: t, _, hf => by
    rw [List.getLast_cons (List.cons_ne_nil b t)]
    exact lastIsSlash_false_getLast (b :: t) (List.cons_ne_nil b t) hf

theorem startsWithSlash_free {s : String} (h : '/' ∉ s.data) :
    startsWithSlash s = false := by
  unfold startsWithSlash
  split
  · next heq => exact absurd (by rw [heq]; exact List.mem_cons_self _ _) h
  · rfl

theorem endsWithSlash_free {s : String} (h : '/' ∉ s.data) :
    endsWithSlash s = false := by
  unfold endsWithSlash
  cases hl : lastIsSlash s.data with
  | false => rfl
  | true => exact absurd (lastIsSlash_of_mem s.data hl) h

theorem endsWithSlash_append_str {a x : String} (hx : x ≠ "") :
    endsWithSlash (a ++ "/" ++ x) = endsWithSlash x := by
  unfold endsWithSlash
  rw [String.data_append, lastIsSlash_append _ (str_data_ne_nil hx)]

/-! ## Supporting lemmas: `posixJoin`, `dirname`, `basename` -/

theorem joinOne_eq {path b : String} (hb : startsWithSlash b = false)
    (hp : path ≠ "") (hps : endsWithSlash path = false) :
    joinOne path b = path ++ "/" ++ b := by
  simp [joinOne, hb, hp, hps]

theorem posixJoin_good :
    ∀ (ps : List String) (a : String), a ≠ "" → endsWithSlash a = false →
      (∀ x ∈ ps, x ≠ "" ∧ startsWithSlash x = false ∧
        endsWithSlash x = false) →
      posixJoin a ps = joinSep (a :: ps) ∧ posixJoin a ps ≠ "" ∧
        endsWithSlash (posixJoin a ps) = false
  | [], a, ha, has, _ => ⟨rfl, ha, has⟩
  | x :: ps, a, ha, has, hall => by
    obtain ⟨hx, hxs, hxe⟩ := hall x (List.mem_cons_self x ps)
    have hstep : posixJoin a (x :: ps) = posixJoin (a ++ "/" ++ x) ps := by
      show List.foldl joinOne (joinOne a x) ps = _
      rw [joinOne_eq hxs ha has]
      rfl
    have ha' : a ++ "/" ++ x ≠ "" := by
      apply str_ne_empty_of_data
      rw [String.data_append]
      intro hnil
      exact str_data_ne_nil hx (List.append_eq_nil.mp hnil).2
    have has' : endsWithSlash (a ++ "/" ++ x) = false := by
      rw [endsWithSlash_append_str hx]
      exact hxe
    have hall' : ∀ y ∈ ps, y ≠ "" ∧ startsWithSlash y = false ∧
        endsWithSlash y = false :=
      fun y hy => hall y (List.mem_cons_of_mem x hy)
    obtain ⟨ih1, ih2, ih3⟩ := posixJoin_good ps (a ++ "/" ++ x) ha' has' hall'
    refine ⟨?_, by rw [hstep]; exact ih2, by rw [hstep]; exact ih3⟩
    rw [hstep, ih1]
    cases ps with
    | nil => rfl
    | cons y ys =>
      show a ++ "/" ++ x ++ "/" ++ joinSep (y :: ys)
          = a ++ "/" ++ (x ++ "/" ++ joinSep (y :: ys))
      apply String.ext
      simp [String.data_append]

theorem takeWhile_notSlash (u v : List Char) (hu : '/' ∉ u) :
    List.takeWhile (fun c => !(c == '/')) (u ++ '/' :: v) = u := by
  rw [List.takeWhile_append]
  have hself : List.takeWhile (fun c => !(c == '/')) u = u :=
    List.takeWhile_eq_self_iff.mpr (fun b hb => by
      simp only [Bool.not_eq_true', beq_eq_false_iff_ne]
      exact fun he => hu (he ▸ hb))
  rw [hself]
  simp [List.takeWhile_cons]

theorem dropWhile_notSlash (u v : List Char) (hu : '/' ∉ u) :
    List.dropWhile (fun c => !(c == '/')) (u ++ '/' :: v) = '/' :: v := by
  rw [List.dropWhile_append]
  have hnil : List.dropWhile (fun c => !(c == '/')) u = [] :=
    List.dropWhile_eq_nil_iff.mpr (fun b hb => by
      simp only [Bool.not_eq_true', beq_eq_false_iff_ne]
      exact fun he => hu (he ▸ hb))
  rw [hnil]
  simp [List.dropWhile_cons]

theorem basename_append {a x : String} (hx : '/' ∉ x.data) :
    basename (a ++ "/" ++ x) = x := by
  apply String.ext
  show ((a ++ "/" ++ x).data.reverse.takeWhile (fun c => !(c == '/'))).reverse
      = x.data
  have hd : (a ++ "/" ++ x).data.reverse
      = x.data.reverse ++ '/' :: a.data.reverse := by
    simp [String.data_append]
  rw [hd, takeWhile_notSlash _ _ (by simpa using hx)]
  simp

theorem dirnameHead_append {a x : String} (hx : '/' ∉ x.data) :
    dirnameHead (a ++ "/" ++ x) = a.data ++ ['/'] := by
  unfold dirnameHead
  have hd : (a ++ "/" ++ x).data.reverse
      = x.data.reverse ++ '/' :: a.data.reverse := by
    simp [String.data_append]
  rw [hd, dropWhile_notSlash _ _ (by simpa using hx)]
  simp

theorem dirname_append {a x : String} (ha : a ≠ "")
    (hae : endsWithSlash a = false) (hx : '/' ∉ x.data) :
    dirname (a ++ "/" ++ x) = a := by
  have hg : a.data.getLast (str_data_ne_nil ha) ≠ '/' :=
    lastIsSlash_false_getLast a.data (str_data_ne_nil ha) hae
  have hnotall : ((a.data ++ ['/']).all (fun c => c == '/')) = false := by
    rw [Bool.eq_false_iff]
    intro hall
    have := List.all_eq_true.mp hall (a.data.getLast (str_data_ne_nil ha))
      (List.mem_append_left _ (List.getLast_mem (str_data_ne_nil ha)))
    exact hg (by simpa using this)
  unfold dirname
  rw [dirnameHead_append hx, hnotall]
  simp only [Bool.false_eq_true, if_false]
  apply String.ext
  show (((a.data ++ ['/']).reverse.dropWhile (fun c => c == '/')).reverse)
      = a.data
  have hrev : (a.data ++ ['/']).reverse = '/' :: a.data.reverse := by simp
  rw [hrev]
  rw [List.dropWhile_cons]
  simp only [beq_self_eq_true, if_true]
  obtain ⟨c, cs, hc⟩ := List.exists_cons_of_ne_nil
    (show a.data.reverse ≠ [] by
      simp only [ne_eq, List.reverse_eq_nil_iff]
      exact str_data_ne_nil ha)
  have hcg : c = a.data.getLast (str_data_ne_nil ha) := by
    have h1 : a.data.reverse.head? = some c := by rw [hc]; rfl
    rw [List.head?_reverse,
      List.getLast?_eq_getLast a.data (str_data_ne_nil ha)] at h1
    exact (Option.some_inj.mp h1).symm
  rw [hc, List.dropWhile_cons]
  have hcne : (c == '/') = false := beq_eq_false_iff_ne.mpr (hcg ▸ hg)
  rw [hcne]
  simp only [Bool.false_eq_true, if_false]
  rw [← hc]
  simp

/-! ## Claim C1 -/

/-- Claim C1: for every URL whose path component has at least one (real)
segment, `create_directory_structure` returns a path whose final segment
(`basename`) is the URL path's last segment, whose prefix with that final
segment removed (`dirname`) equals
`outputRoot/sourceIdentifier/<all-but-last-segments-joined-by-separator>`,
and the directory at that prefix exists in the returned filesystem. -/
theorem c1_local_path_structure (url base_dir source_name : String)
    (fs : FS)
    (hb : base_dir ≠ "") (hbe : endsWithSlash base_dir = false)
    (hsn : source_name ≠ "") (hss : startsWithSlash source_name = false)
    (hse : endsWithSlash source_name = false)
    (hseg : ∀ seg ∈ pySplit '/' (pyStrip '/' (urlPath url)), seg ≠ "") :
    basename (create_directory_structure url base_dir source_name fs).1
        = (pySplit '/' (pyStrip '/' (urlPath url))).getLastD "" ∧
    dirname (create_directory_structure url base_dir source_name fs).1
        = joinSep (base_dir :: source_name ::
            (pySplit '/' (pyStrip '/' (urlPath url))).dropLast) ∧
    dirname (create_directory_structure url base_dir source_name fs).1
        ∈ (create_directory_structure url base_dir source_name fs).2.dirs := by
  set pp := pySplit '/' (pyStrip '/' (urlPath url)) with hpp_def
  have hpp : pp ≠ [] := pySplit_ne_nil _ _
  have hfree : ∀ seg ∈ pp, '/' ∉ seg.data :=
    fun seg hs => mem_pySplit_slash_free hs
  have hgood : ∀ x ∈ source_name :: pp.dropLast,
      x ≠ "" ∧ startsWithSlash x = false ∧ endsWithSlash x = false := by
    intro x hx
    rcases List.mem_cons.mp hx with rfl | hx2
    · exact ⟨hsn, hss, hse⟩
    · have hmem : x ∈ pp := (List.dropLast_sublist pp).subset hx2
      exact ⟨hseg x hmem, startsWithSlash_free (hfree x hmem),
        endsWithSlash_free (hfree x hmem)⟩
  obtain ⟨hj, hne, hends⟩ :=
    posixJoin_good (source_name :: pp.dropLast) base_dir hb hbe hgood
  have hfn_mem : pp.getLastD "" ∈ pp := by
    rw [List.getLastD_eq_getLast?, List.getLast?_eq_getLast pp hpp]
    exact List.getLast_mem hpp
  have hfn_free : '/' ∉ (pp.getLastD "").data := hfree _ hfn_mem
  have hr1 : (create_directory_structure url base_dir source_name fs).1
      = posixJoin base_dir (source_name :: pp.dropLast) ++ "/"
        ++ pp.getLastD "" := by
    show joinOne (posixJoin base_dir (source_name :: pp.dropLast))
        (pp.getLastD "") = _
    exact joinOne_eq (startsWithSlash_free hfn_free) hne hends
  refine ⟨?_, ?_, ?_⟩
  · rw [hr1]
    exact basename_append hfn_free
  · rw [hr1, dirname_append hne hends hfn_free, hj]
  · rw [hr1, dirname_append hne hends hfn_free]
    show _ ∈ (makedirs fs
      (posixJoin base_dir (source_name :: pp.dropLast))).dirs
    unfold makedirs
    exact List.mem_append_left _ (List.mem_cons_self _ _)

/-- Witness for C1 at a concrete URL, output root and source. -/
theorem c1_witness :
    basename (create_directory_structure
        "https://docs.claude.com/en/docs/intro.md" "gitignore/downloaded_docs"
        "claude-docs" ⟨[], []⟩).1
      = (pySplit '/' (pyStrip '/'
          (urlPath "https://docs.claude.com/en/docs/intro.md"))).getLastD "" ∧
    dirname (create_directory_structure
        "https://docs.claude.com/en/docs/intro.md" "gitignore/downloaded_docs"
        "claude-docs" ⟨[], []⟩).1
      = joinSep ("gitignore/downloaded_docs" :: "claude-docs" ::
          (pySplit '/' (pyStrip '/'
            (urlPath "https://docs.claude.com/en/docs/intro.md"))).dropLast) ∧
    dirname (create_directory_structure
        "https://docs.claude.com/en/docs/intro.md" "gitignore/downloaded_docs"
        "claude-docs" ⟨[], []⟩).1
      ∈ (create_directory_structure
          "https://docs.claude.com/en/docs/intro.md" "gitignore/downloaded_docs"
          "claude-docs" ⟨[], []⟩).2.dirs :=
  c1_local_path_structure "https://docs.claude.com/en/docs/intro.md"
    "gitignore/downloaded_docs" "claude-docs" ⟨[], []⟩
    (by decide) (by decide) (by decide) (by decide) (by decide) (by decide)

/-! ## Claim C9 -/

/-- Counterexample to claim C9 as stated: `create_directory_structure` is
total and, called directly with the pathless URL
`https://docs.anthropic.com`, it does not signal an error — it returns
the definite path `gitignore/downloaded_docs/claude-docs/` (the Python
code raises nothing on this input: `''.strip('/').split('/') == ['']`,
so the join succeeds with an empty filename). -/
theorem c9_counterexample :
    (create_directory_structure "https://docs.anthropic.com"
      "gitignore/downloaded_docs" "claude-docs" ⟨[], []⟩).1
    = "gitignore/downloaded_docs/claude-docs/" := by decide

/-- Claim C9 (amended): for every URL whose path component is empty, a
direct call to `create_directory_structure` does not signal an error: it
returns the path `outputRoot/sourceIdentifier/` — the per-source root
with an empty final segment. -/
theorem c9_pathless_returns_path (url base_dir source_name : String)
    (fs : FS) (hpath : urlPath url = "")
    (hb : base_dir ≠ "") (hbe : endsWithSlash base_dir = false)
    (hsn : source_name ≠ "") (hss : startsWithSlash source_name = false)
    (hse : endsWithSlash source_name = false) :
    (create_directory_structure url base_dir source_name fs).1
      = base_dir ++ "/" ++ source_name ++ "/" := by
  have hpp : pySplit '/' (pyStrip '/' (urlPath url)) = [""] := by
    rw [hpath]
    rfl
  have hfs : (create_directory_structure url base_dir source_name fs).1
      = joinOne (joinOne base_dir source_name)
          ((pySplit '/' (pyStrip '/' (urlPath url))).getLastD "") := by
    show joinOne (posixJoin base_dir
        (source_name :: (pySplit '/' (pyStrip '/' (urlPath url))).dropLast))
        ((pySplit '/' (pyStrip '/' (urlPath url))).getLastD "") = _
    rw [hpp]
    rfl
  rw [hfs, hpp]
  show joinOne (joinOne base_dir source_name) "" = _
  rw [joinOne_eq hss hb hbe]
  have hne : base_dir ++ "/" ++ source_name ≠ "" := by
    apply str_ne_empty_of_data
    rw [String.data_append]
    intro hnil
    exact str_data_ne_nil hsn (List.append_eq_nil.mp hnil).2
  have hends : endsWithSlash (base_dir ++ "/" ++ source_name) = false := by
    rw [endsWithSlash_append_str hsn]
    exact hse
  rw [joinOne_eq (by decide) hne hends]
  apply String.ext
  simp [String.data_append]

/-- Witness for the amended C9 at a concrete pathless URL. -/
theorem c9_witness :
    (create_directory_structure "https://code.claude.com" "out"
      "claude-code" ⟨[], []⟩).1 = "out" ++ "/" ++ "claude-code" ++ "/" :=
  c9_pathless_returns_path "https://code.claude.com" "out" "claude-code"
    ⟨[], []⟩ (by decide) (by decide) (by decide) (by decide) (by decide)
    (by decide)

/-! ## Supporting lemmas: substring containment -/

theorem leadsWith_iff : ∀ (f l : List Char), leadsWith f l = true ↔ f <+: l
  | [], l => by simp [leadsWith, List.nil_prefix]
  | a :: as, [] => by simp [leadsWith, List.prefix_nil]
  | a :: as, b :: bs => by
    simp [leadsWith, List.cons_prefix_cons, leadsWith_iff as bs,
      Bool.and_eq_true, beq_iff_eq]

theorem containsSub_iff : ∀ (f l : List Char),
    containsSub f l = true ↔ f <:+: l
  | f, [] => by
    simp [containsSub, leadsWith_iff, List.prefix_nil, List.infix_nil]
  | f, x :: xs => by
    rw [show containsSub f (x :: xs)
        = (leadsWith f (x :: xs) || containsSub f xs) from rfl]
    simp only [Bool.or_eq_true, leadsWith_iff, containsSub_iff f xs,
      List.infix_cons_iff]

/-! ## Claim C4 -/

/-- The value of `fetch_urls_from_source` on a success response with a
truthy filter. -/
theorem fetch_urls_success_filter (net : Net) (findall : Findall)
    (source_name : String) (cfg : SourceConfig) (content fp : String)
    (fr : Bool)
    (hnet : net (indexRequest cfg.url fr) = HttpResponse.success content)
    (hfp : fp ≠ "") :
    fetch_urls_from_source net findall source_name cfg (some fp) fr
      = (((findall cfg.pattern content).filter
          (fun (url : String) => containsSub fp.data url.data)).map
            (fun url => (url, source_name))).toFinset := by
  unfold fetch_urls_from_source
  rw [hnet]
  simp [hfp]

/-- The value of `fetch_urls_from_source` on a success response with no
filter. -/
theorem fetch_urls_success_nofilter (net : Net) (findall : Findall)
    (source_name : String) (cfg : SourceConfig) (content : String)
    (fr : Bool)
    (hnet : net (indexRequest cfg.url fr) = HttpResponse.success content) :
    fetch_urls_from_source net findall source_name cfg none fr
      = ((findall cfg.pattern content).map
          (fun url => (url, source_name))).toFinset := by
  unfold fetch_urls_from_source
  rw [hnet]

/-- Claim C4: for every extraction and non-empty filter string, the
filtered result of `fetch_urls_from_source` is a subset of the
unfiltered one (hence introduces no URL absent from it), and every
member's URL contains the filter string as a literal substring. -/
theorem c4_filter_refines (net : Net) (findall : Findall)
    (source_name : String) (cfg : SourceConfig) (content fp : String)
    (fr : Bool)
    (hnet : net (indexRequest cfg.url fr) = HttpResponse.success content)
    (hfp : fp ≠ "") :
    fetch_urls_from_source net findall source_name cfg (some fp) fr
      ⊆ fetch_urls_from_source net findall source_name cfg none fr ∧
    ∀ p ∈ fetch_urls_from_source net findall source_name cfg (some fp) fr,
      fp.data <:+: p.1.data := by
  rw [fetch_urls_success_filter net findall source_name cfg content fp fr
      hnet hfp,
    fetch_urls_success_nofilter net findall source_name cfg content fr hnet]
  constructor
  · intro p hp
    simp only [List.mem_toFinset, List.mem_map] at hp ⊢
    obtain ⟨u, hu, rfl⟩ := hp
    exact ⟨u, (List.mem_filter.mp hu).1, rfl⟩
  · intro p hp
    simp only [List.mem_toFinset, List.mem_map] at hp
    obtain ⟨u, hu, rfl⟩ := hp
    exact (containsSub_iff _ _).mp (List.mem_filter.mp hu).2

/-- Witness for C4 on the spec's scenario: two extracted URLs and the
filter `guide`. -/
theorem c4_witness :
    fetch_urls_from_source
        (fun _ => HttpResponse.success
          "See https://docs.claude.com/en/api.md and https://docs.claude.com/en/guide.md")
        (fun _ _ => ["https://docs.claude.com/en/api.md",
          "https://docs.claude.com/en/guide.md"])
        "claude-docs"
        ⟨"https://docs.anthropic.com/llms.txt",
         "https://docs\\.claude\\.com/[^\\s\\)]+\\.md", "Claude Docs"⟩
        (some "guide") true
      ⊆ fetch_urls_from_source
        (fun _ => HttpResponse.success
          "See https://docs.claude.com/en/api.md and https://docs.claude.com/en/guide.md")
        (fun _ _ => ["https://docs.claude.com/en/api.md",
          "https://docs.claude.com/en/guide.md"])
        "claude-docs"
        ⟨"https://docs.anthropic.com/llms.txt",
         "https://docs\\.claude\\.com/[^\\s\\)]+\\.md", "Claude Docs"⟩
        none true ∧
    ∀ p ∈ fetch_urls_from_source
        (fun _ => HttpResponse.success
          "See https://docs.claude.com/en/api.md and https://docs.claude.com/en/guide.md")
        (fun _ _ => ["https://docs.claude.com/en/api.md",
          "https://docs.claude.com/en/guide.md"])
        "claude-docs"
        ⟨"https://docs.anthropic.com/llms.txt",
         "https://docs\\.claude\\.com/[^\\s\\)]+\\.md", "Claude Docs"⟩
        (some "guide") true,
      "guide".data <:+: p.1.data :=
  c4_filter_refines
    (fun _ => HttpResponse.success
      "See https://docs.claude.com/en/api.md and https://docs.claude.com/en/guide.md")
    (fun _ _ => ["https://docs.claude.com/en/api.md",
      "https://docs.claude.com/en/guide.md"])
    "claude-docs"
    ⟨"https://docs.anthropic.com/llms.txt",
     "https://docs\\.claude\\.com/[^\\s\\)]+\\.md", "Claude Docs"⟩
    "See https://docs.claude.com/en/api.md and https://docs.claude.com/en/guide.md"
    "guide" true rfl (by decide)

/-! ## Supporting lemmas: `fetch_all_urls` as a union over sources -/

theorem fetch_all_eq_foldl (net : Net) (findall : Findall)
    (filt : Option String) (fr : Bool) :
    ∀ (l : List String) (init : Finset (String × String)),
      l.foldl (fun all_urls source_name =>
        match lookupSource source_name with
        | some cfg => all_urls ∪ fetch_urls_from_source net findall
            source_name cfg filt fr
        | none => all_urls) init
      = l.foldl (fun acc s => acc ∪ sourceLinks net findall filt fr s) init
  | [], _ => rfl
  | s :: t, init => by
    rw [List.foldl_cons, List.foldl_cons]
    have hbody : (match lookupSource s with
        | some cfg => init ∪ fetch_urls_from_source net findall s cfg filt fr
        | none => init)
        = init ∪ sourceLinks net findall filt fr s := by
      unfold sourceLinks
      cases lookupSource s with
      | none => rw [Finset.union_empty]
      | some cfg => rfl
    rw [hbody]
    exact fetch_all_eq_foldl net findall filt fr t _

theorem mem_foldl_union (g : String → Finset (String × String)) :
    ∀ (l : List String) (init : Finset (String × String))
      (p : String × String),
      p ∈ l.foldl (fun acc s => acc ∪ g s) init ↔
        p ∈ init ∨ ∃ s ∈ l, p ∈ g s
  | [], init, p => by simp
  | s :: t, init, p => by
    rw [List.foldl_cons, mem_foldl_union g t (init ∪ g s) p]
    simp only [Finset.mem_union, List.mem_cons]
    constructor
    · rintro ((h | h) | ⟨x, hx, hp⟩)
      · exact Or.inl h
      · exact Or.inr ⟨s, Or.inl rfl, h⟩
      · exact Or.inr ⟨x, Or.inr hx, hp⟩
    · rintro (h | ⟨x, (rfl | hx), hp⟩)
      · exact Or.inl (Or.inl h)
      · exact Or.inl (Or.inr hp)
      · exact Or.inr ⟨x, hx, hp⟩

/-- Membership in `fetch_all_urls`: exactly the union of the per-source
contributions. -/
theorem mem_fetch_all (net : Net) (findall : Findall) (l : List String)
    (filt : Option String) (fr : Bool) (p : String × String) :
    p ∈ fetch_all_urls net findall l filt fr ↔
      ∃ s ∈ l, p ∈ sourceLinks net findall filt fr s := by
  unfold fetch_all_urls
  rw [fetch_all_eq_foldl, mem_foldl_union]
  simp

/-! ## Claim C3 -/

/-- Claim C3: when the index retrieval for a registered source fails (a
network error or a non-success status), `fetch_urls_from_source` returns
the empty set — the embedding is total, so nothing is raised past this
boundary — and `fetch_all_urls` over any requested list equals the
aggregation with every occurrence of the failing source removed: the
other sources' contributions are unaffected. -/
theorem c3_failing_source_contributes_nothing (net : Net)
    (findall : Findall) (s : String) (cfg : SourceConfig)
    (filt : Option String) (fr : Bool) (l : List String)
    (hcfg : lookupSource s = some cfg)
    (hfail : net (indexRequest cfg.url fr) = HttpResponse.failure) :
    fetch_urls_from_source net findall s cfg filt fr = ∅ ∧
    fetch_all_urls net findall l filt fr
      = fetch_all_urls net findall (l.filter (fun t => t != s)) filt fr := by
  have hempty : fetch_urls_from_source net findall s cfg filt fr = ∅ := by
    unfold fetch_urls_from_source
    rw [hfail]
  refine ⟨hempty, ?_⟩
  apply Finset.ext
  intro p
  rw [mem_fetch_all, mem_fetch_all]
  constructor
  · rintro ⟨t, ht, hp⟩
    by_cases hts : t = s
    · subst hts
      simp only [sourceLinks, hcfg, hempty] at hp
      exact absurd hp (Finset.not_mem_empty p)
    · exact ⟨t, List.mem_filter.mpr ⟨ht, bne_iff_ne.mpr hts⟩, hp⟩
  · rintro ⟨t, ht, hp⟩
    exact ⟨t, (List.mem_filter.mp ht).1, hp⟩

/-- Witness for C3: the `claude-docs` index fetch fails while
`claude-code` is unaffected. -/
theorem c3_witness :
    fetch_urls_from_source
        (fun r => if r.url == "https://docs.anthropic.com/llms.txt"
          then HttpResponse.failure else HttpResponse.success "body")
        (fun _ _ => ["https://code.claude.com/docs/en/overview.md"])
        "claude-docs"
        ⟨"https://docs.anthropic.com/llms.txt",
         "https://docs\\.claude\\.com/[^\\s\\)]+\\.md", "Claude Docs"⟩
        none true = ∅ ∧
    fetch_all_urls
        (fun r => if r.url == "https://docs.anthropic.com/llms.txt"
          then HttpResponse.failure else HttpResponse.success "body")
        (fun _ _ => ["https://code.claude.com/docs/en/overview.md"])
        ["claude-docs", "claude-code"] none true
      = fetch_all_urls
        (fun r => if r.url == "https://docs.anthropic.com/llms.txt"
          then HttpResponse.failure else HttpResponse.success "body")
        (fun _ _ => ["https://code.claude.com/docs/en/overview.md"])
        (["claude-docs", "claude-code"].filter
          (fun t => t != "claude-docs")) none true :=
  c3_failing_source_contributes_nothing
    (fun r => if r.url == "https://docs.anthropic.com/llms.txt"
      then HttpResponse.failure else HttpResponse.success "body")
    (fun _ _ => ["https://code.claude.com/docs/en/overview.md"])
    "claude-docs"
    ⟨"https://docs.anthropic.com/llms.txt",
     "https://docs\\.claude\\.com/[^\\s\\)]+\\.md", "Claude Docs"⟩
    none true ["claude-docs", "claude-code"] (by decide) (by decide)

/-! ## Claim C10 -/

/-- Claim C10: `fetch_all_urls` equals the union of
`fetch_urls_from_source` over exactly those requested identifiers
present in the static `SOURCES` registry (first conjunct, as a
membership characterisation), and an unregistered identifier is silently
skipped — removing it from the request list leaves the aggregation
unchanged, and no error is signalled since the embedding is total
(second conjunct). -/
theorem c10_unregistered_skipped (net : Net) (findall : Findall)
    (filt : Option String) (fr : Bool) :
    (∀ (l : List String) (p : String × String),
      p ∈ fetch_all_urls net findall l filt fr ↔
        ∃ s cfg, s ∈ l ∧ lookupSource s = some cfg ∧
          p ∈ fetch_urls_from_source net findall s cfg filt fr) ∧
    (∀ (l₁ l₂ : List String) (s : String), lookupSource s = none →
      fetch_all_urls net findall (l₁ ++ s :: l₂) filt fr
        = fetch_all_urls net findall (l₁ ++ l₂) filt fr) := by
  constructor
  · intro l p
    rw [mem_fetch_all]
    constructor
    · rintro ⟨s, hs, hp⟩
      cases hcfg : lookupSource s with
      | none =>
        simp only [sourceLinks, hcfg] at hp
        exact absurd hp (Finset.not_mem_empty p)
      | some cfg =>
        refine ⟨s, cfg, hs, hcfg, ?_⟩
        simpa only [sourceLinks, hcfg] using hp
    · rintro ⟨s, cfg, hs, hcfg, hp⟩
      exact ⟨s, hs, by simpa only [sourceLinks, hcfg] using hp⟩
  · intro l₁ l₂ s hnone
    apply Finset.ext
    intro p
    rw [mem_fetch_all, mem_fetch_all]
    constructor
    · rintro ⟨t, ht, hp⟩
      rcases List.mem_append.mp ht with h1 | h2
      · exact ⟨t, List.mem_append_left _ h1, hp⟩
      · rcases List.mem_cons.mp h2 with rfl | h3
        · simp only [sourceLinks, hnone] at hp
          exact absurd hp (Finset.not_mem_empty p)
        · exact ⟨t, List.mem_append_right _ h3, hp⟩
    · rintro ⟨t, ht, hp⟩
      rcases List.mem_append.mp ht with h1 | h2
      · exact ⟨t, List.mem_append_left _ h1, hp⟩
      · exact ⟨t, List.mem_append_right _ (List.mem_cons_of_mem _ h2), hp⟩

/-- Witness for C10: an unregistered identifier `nope` between the two
registered ones contributes nothing. -/
theorem c10_witness :
    (((("https://docs.claude.com/en/api.md", "claude-docs") : String × String)
      ∈ fetch_all_urls (fun _ => HttpResponse.success "body")
        (fun _ _ => ["https://docs.claude.com/en/api.md"])
        ["claude-docs", "nope"] none true) ↔
      ∃ s cfg, s ∈ ["claude-docs", "nope"] ∧ lookupSource s = some cfg ∧
        ("https://docs.claude.com/en/api.md", "claude-docs")
          ∈ fetch_urls_from_source (fun _ => HttpResponse.success "body")
            (fun _ _ => ["https://docs.claude.com/en/api.md"]) s cfg
            none true) ∧
    fetch_all_urls (fun _ => HttpResponse.success "body")
        (fun _ _ => ["https://docs.claude.com/en/api.md"])
        (["claude-docs"] ++ "nope" :: ["claude-code"]) none true
      = fetch_all_urls (fun _ => HttpResponse.success "body")
        (fun _ _ => ["https://docs.claude.com/en/api.md"])
        (["claude-docs"] ++ ["claude-code"]) none true :=
  ⟨(c10_unregistered_skipped (fun _ => HttpResponse.success "body")
      (fun _ _ => ["https://docs.claude.com/en/api.md"]) none true).1
    ["claude-docs", "nope"] ("https://docs.claude.com/en/api.md", "claude-docs"),
   (c10_unregistered_skipped (fun _ => HttpResponse.success "body")
      (fun _ _ => ["https://docs.claude.com/en/api.md"]) none true).2
    ["claude-docs"] ["claude-code"] "nope" (by decide)⟩

/-! ## Claim C5 -/

/-- Claim C5: (first conjunct) when two distinct registered sources' index
documents both yield URL `X`, `fetch_all_urls` over both sources contains
the two distinct Discovered Links `(X, sA)` and `(X, sB)`; (second
conjunct) the same URL occurring twice in one source's extraction
collapses to a single entry: the resulting set equals the set built from
the match list with the duplicate occurrence removed. -/
theorem c5_uniqueness_by_pair :
    (∀ (net : Net) (findall : Findall) (sA sB : String)
      (cfgA cfgB : SourceConfig) (X cA cB : String) (fr : Bool)
      (pre1 post1 pre2 post2 : List String),
      sA ≠ sB →
      lookupSource sA = some cfgA → lookupSource sB = some cfgB →
      net (indexRequest cfgA.url fr) = HttpResponse.success cA →
      net (indexRequest cfgB.url fr) = HttpResponse.success cB →
      findall cfgA.pattern cA = pre1 ++ X :: post1 →
      findall cfgB.pattern cB = pre2 ++ X :: post2 →
      ((X, sA) ∈ fetch_all_urls net findall [sA, sB] none fr ∧
       (X, sB) ∈ fetch_all_urls net findall [sA, sB] none fr ∧
       ((X, sA) : String × String) ≠ (X, sB))) ∧
    (∀ (net : Net) (findall : Findall) (source_name : String)
      (cfg : SourceConfig) (c X : String) (fr : Bool)
      (pre mid post : List String),
      net (indexRequest cfg.url fr) = HttpResponse.success c →
      findall cfg.pattern c = pre ++ X :: (mid ++ X :: post) →
      fetch_urls_from_source net findall source_name cfg none fr
        = (((pre ++ X :: mid) ++ post).map
            (fun (u : String) => (u, source_name))).toFinset) := by
  constructor
  · intro net findall sA sB cfgA cfgB X cA cB fr pre1 post1 pre2 post2
      hAB hcfgA hcfgB hnetA hnetB hfA hfB
    have hA : (X, sA) ∈ fetch_urls_from_source net findall sA cfgA none fr := by
      rw [fetch_urls_success_nofilter net findall sA cfgA cA fr hnetA, hfA]
      simp only [List.mem_toFinset, List.mem_map]
      exact ⟨X, List.mem_append_right _ (List.mem_cons_self X post1), rfl⟩
    have hB : (X, sB) ∈ fetch_urls_from_source net findall sB cfgB none fr := by
      rw [fetch_urls_success_nofilter net findall sB cfgB cB fr hnetB, hfB]
      simp only [List.mem_toFinset, List.mem_map]
      exact ⟨X, List.mem_append_right _ (List.mem_cons_self X post2), rfl⟩
    refine ⟨?_, ?_, ?_⟩
    · rw [mem_fetch_all]
      exact ⟨sA, by simp, by simpa only [sourceLinks, hcfgA] using hA⟩
    · rw [mem_fetch_all]
      exact ⟨sB, by simp, by simpa only [sourceLinks, hcfgB] using hB⟩
    · intro h
      exact hAB (congrArg Prod.snd h)
  · intro net findall source_name cfg c X fr pre mid post hnet hf
    rw [fetch_urls_success_nofilter net findall source_name cfg c fr hnet,
      hf]
    apply Finset.ext
    intro p
    simp only [List.mem_toFinset, List.mem_map, List.mem_append,
      List.mem_cons]
    constructor
    · rintro ⟨u, hu, rfl⟩
      refine ⟨u, ?_, rfl⟩
      tauto
    · rintro ⟨u, hu, rfl⟩
      refine ⟨u, ?_, rfl⟩
      tauto

/-- Witness for C5: both registered sources carry the same URL, and a
duplicated match collapses. -/
theorem c5_witness :
    ((("https://docs.claude.com/en/api.md", "claude-docs") : String × String)
      ∈ fetch_all_urls (fun _ => HttpResponse.success "idx")
        (fun _ _ => ["https://docs.claude.com/en/api.md"])
        ["claude-docs", "claude-code"] none true ∧
     (("https://docs.claude.com/en/api.md", "claude-code") : String × String)
      ∈ fetch_all_urls (fun _ => HttpResponse.success "idx")
        (fun _ _ => ["https://docs.claude.com/en/api.md"])
        ["claude-docs", "claude-code"] none true ∧
     (("https://docs.claude.com/en/api.md", "claude-docs") : String × String)
      ≠ ("https://docs.claude.com/en/api.md", "claude-code")) ∧
    fetch_urls_from_source (fun _ => HttpResponse.success "idx2")
        (fun _ _ => ["https://docs.claude.com/en/x.md",
          "https://docs.claude.com/en/x.md"])
        "claude-docs"
        ⟨"https://docs.anthropic.com/llms.txt",
         "https://docs\\.claude\\.com/[^\\s\\)]+\\.md", "Claude Docs"⟩
        none true
      = ((([] ++ "https://docs.claude.com/en/x.md" :: []) ++ []).map
          (fun (u : String) => (u, "claude-docs"))).toFinset :=
  ⟨c5_uniqueness_by_pair.1 (fun _ => HttpResponse.success "idx")
      (fun _ _ => ["https://docs.claude.com/en/api.md"])
      "claude-docs" "claude-code"
      ⟨"https://docs.anthropic.com/llms.txt",
       "https://docs\\.claude\\.com/[^\\s\\)]+\\.md", "Claude Docs"⟩
      ⟨"https://code.claude.com/docs/llms.txt",
       "https://[^\\s\\)]+\\.md", "Claude Code Docs"⟩
      "https://docs.claude.com/en/api.md" "idx" "idx" true [] [] [] []
      (by decide) (by decide) (by decide) rfl rfl rfl rfl,
   c5_uniqueness_by_pair.2 (fun _ => HttpResponse.success "idx2")
      (fun _ _ => ["https://docs.claude.com/en/x.md",
        "https://docs.claude.com/en/x.md"])
      "claude-docs"
      ⟨"https://docs.anthropic.com/llms.txt",
       "https://docs\\.claude\\.com/[^\\s\\)]+\\.md", "Claude Docs"⟩
      "idx2" "https://docs.claude.com/en/x.md" true [] [] []
      rfl rfl⟩

/-! ## Claim C6 -/

/-- Counterexample to claim C6 as stated: the download retrieval does not
honour the caller's redirect toggle.  `download_file` calls
`requests.get(url, headers=headers, timeout=30)` with no
`allow_redirects` argument (line 122), so the requests-library default
applies and the download request follows redirects even in a run where
the caller disabled redirect following. -/
theorem c6_counterexample :
    ¬ ((downloadRequest
      "https://code.claude.com/docs/en/overview.md").allowRedirects
        = false) := by decide

/-- Claim C6 (amended): both retrievals use a GET with the fixed
user-agent and the 30 time-unit timeout; the index fetch uses the
caller-controlled redirect toggle, while the file download always
follows redirects regardless of the toggle.  The last two conjuncts
show these are the only requests the two functions issue: each
function's result depends on the network only through its value at that
one request. -/
theorem c6_request_discipline :
    (∀ (u : String) (fr : Bool),
      (indexRequest u fr).method = "GET" ∧
      (indexRequest u fr).userAgent = USER_AGENT ∧
      (indexRequest u fr).timeout = 30 ∧
      (indexRequest u fr).allowRedirects = fr) ∧
    (∀ u : String,
      (downloadRequest u).method = "GET" ∧
      (downloadRequest u).userAgent = USER_AGENT ∧
      (downloadRequest u).timeout = 30 ∧
      (downloadRequest u).allowRedirects = true) ∧
    (∀ (net net' : Net) (findall : Findall) (source_name : String)
      (cfg : SourceConfig) (filt : Option String) (fr : Bool),
      net (indexRequest cfg.url fr) = net' (indexRequest cfg.url fr) →
      fetch_urls_from_source net findall source_name cfg filt fr
        = fetch_urls_from_source net' findall source_name cfg filt fr) ∧
    (∀ (net net' : Net) (u lp : String) (fs : FS),
      net (downloadRequest u) = net' (downloadRequest u) →
      download_file net u lp fs = download_file net' u lp fs) := by
  refine ⟨fun _ _ => ⟨rfl, rfl, rfl, rfl⟩,
    fun _ => ⟨rfl, rfl, rfl, rfl⟩, ?_, ?_⟩
  · intro net net' findall source_name cfg filt fr h
    unfold fetch_urls_from_source
    rw [h]
  · intro net net' u lp fs h
    unfold download_file
    rw [h]

/-- Witness for the amended C6 with the redirect toggle disabled. -/
theorem c6_witness :
    (indexRequest "https://docs.anthropic.com/llms.txt"
      false).allowRedirects = false ∧
    (downloadRequest
      "https://docs.claude.com/en/api.md").allowRedirects = true ∧
    fetch_urls_from_source (fun _ => HttpResponse.failure) (fun _ _ => [])
        "claude-docs"
        ⟨"https://docs.anthropic.com/llms.txt",
         "https://docs\\.claude\\.com/[^\\s\\)]+\\.md", "Claude Docs"⟩
        none false
      = fetch_urls_from_source (fun _ => HttpResponse.failure)
        (fun _ _ => []) "claude-docs"
        ⟨"https://docs.anthropic.com/llms.txt",
         "https://docs\\.claude\\.com/[^\\s\\)]+\\.md", "Claude Docs"⟩
        none false ∧
    download_file (fun _ => HttpResponse.failure)
        "https://docs.claude.com/en/api.md" "out/x.md" ⟨[], []⟩
      = download_file (fun _ => HttpResponse.failure)
        "https://docs.claude.com/en/api.md" "out/x.md" ⟨[], []⟩ :=
  ⟨(c6_request_discipline.1 "https://docs.anthropic.com/llms.txt"
      false).2.2.2,
   (c6_request_discipline.2.1 "https://docs.claude.com/en/api.md").2.2.2,
   c6_request_discipline.2.2.1 (fun _ => HttpResponse.failure)
     (fun _ => HttpResponse.failure) (fun _ _ => []) "claude-docs"
     ⟨"https://docs.anthropic.com/llms.txt",
      "https://docs\\.claude\\.com/[^\\s\\)]+\\.md", "Claude Docs"⟩
     none false rfl,
   c6_request_discipline.2.2.2 (fun _ => HttpResponse.failure)
     (fun _ => HttpResponse.failure) "https://docs.claude.com/en/api.md"
     "out/x.md" ⟨[], []⟩ rfl⟩

/-! ## Claim C7 -/

/-- Claim C7: the Orchestrator iterates the aggregated set in the
lexicographically sorted order of the `(url, source-identifier)` pairs:
`mainLoop` runs `runLoop` on `sortPairs url_tuples`, that listing is
sorted under `pairLe` and enumerates exactly the aggregated set, and it
is the unique such sorted listing — any sorted listing of the same
aggregated set is equal to it, so two runs over the same set process
entries in the same order. -/
theorem c7_deterministic_order (s : Finset (String × String)) :
    List.Sorted pairLe (sortPairs s) ∧
    (sortPairs s).toFinset = s ∧
    (∀ (net : Net) (output : String) (fs : FS),
      mainLoop net output s fs
        = runLoop net output (sortPairs s) (makedirs fs output)) ∧
    (∀ l : List (String × String), l.Perm (sortPairs s) →
      List.Sorted pairLe l → l = sortPairs s) :=
  ⟨Finset.sort_sorted pairLe s, Finset.sort_toFinset pairLe s,
   fun _ _ _ => rfl,
   fun _ hperm hsort =>
     List.eq_of_perm_of_sorted hperm hsort (Finset.sort_sorted pairLe s)⟩

/-- Witness for C7 on a one-element aggregated set. -/
theorem c7_witness :
    [(("https://docs.claude.com/en/api.md", "claude-docs") :
      String × String)]
      = sortPairs {("https://docs.claude.com/en/api.md", "claude-docs")} :=
  (c7_deterministic_order
      {("https://docs.claude.com/en/api.md", "claude-docs")}).2.2.2
    [("https://docs.claude.com/en/api.md", "claude-docs")]
    (by simp [sortPairs, Finset.sort_singleton])
    (by simp)

/-! ## Claim C8 -/

/-- The pacing discipline holds for every run of the download loop. -/
theorem runLoop_goodEvents (net : Net) (output : String) :
    ∀ (entries : List (String × String)) (fs : FS),
      goodEvents (runLoop net output entries fs).events = true
  | [], _ => rfl
  | (url, source_name) :: rest, fs => by
    cases h : pathExists
        (create_directory_structure url output source_name fs).2
        (create_directory_structure url output source_name fs).1 with
    | true =>
      simp only [runLoop, h, if_true]
      show goodEvents (Event.skip _ :: _) = true
      show goodEvents (runLoop net output rest
        (create_directory_structure url output source_name fs).2).events
          = true
      exact runLoop_goodEvents net output rest _
    | false =>
      simp only [runLoop, h, Bool.false_eq_true, if_false]
      show goodEvents (Event.attempt _ _ :: Event.sleep (1/2) :: _) = true
      rw [show ∀ (u : String) (b : Bool) (evs : List Event),
          goodEvents (Event.attempt u b :: Event.sleep (1/2) :: evs)
            = (((1:ℚ)/2 == (1:ℚ)/2) && goodEvents evs) from
        fun _ _ _ => rfl]
      simp [runLoop_goodEvents net output rest _]

/-- Claim C8: in the Orchestrator's iterate-download loop, the 0.5
time-unit pause follows every download attempt (successful or failed)
and never follows an entry skipped for pre-existence: the event trace of
every run satisfies the pacing discipline `goodEvents`. -/
theorem c8_pause_discipline (net : Net) (output : String)
    (url_tuples : Finset (String × String)) (fs : FS) :
    goodEvents (mainLoop net output url_tuples fs).events = true :=
  runLoop_goodEvents net output (sortPairs url_tuples) (makedirs fs output)

/-! ## Claim C2 -/

/-- The path returned by `create_directory_structure` is independent of
the filesystem state. -/
theorem create_fst_eq (url base_dir source_name : String) (fs : FS) :
    (create_directory_structure url base_dir source_name fs).1
      = localTarget url base_dir source_name := rfl

/-- The filesystem returned by `create_directory_structure` is the input
one with the directory chain created. -/
theorem create_snd_eq (url base_dir source_name : String) (fs : FS) :
    (create_directory_structure url base_dir source_name fs).2
      = makedirs fs (posixJoin base_dir (source_name ::
          (pySplit '/' (pyStrip '/' (urlPath url))).dropLast)) := rfl

/-- Creating a directory never removes an existing path. -/
theorem pathExists_makedirs {fs : FS} {p : String} (d : String)
    (h : pathExists fs p = true) : pathExists (makedirs fs d) p = true := by
  unfold pathExists at h
  unfold pathExists makedirs
  simp only [Bool.or_eq_true, List.any_eq_true] at h ⊢
  rcases h with ⟨e, he, hp⟩ | ⟨x, hx, hp⟩
  · exact Or.inl ⟨e, he, hp⟩
  · exact Or.inr ⟨x, List.mem_append_right _ hx, hp⟩

/-- List-level form of C2: if the local target of every entry already
exists, the loop skips everything: no download attempt happens, the
skip counter covers the whole list, and every event is a skip. -/
theorem runLoop_all_exist (net : Net) (output : String) :
    ∀ (entries : List (String × String)) (fs : FS),
      (∀ p ∈ entries, pathExists fs (localTarget p.1 output p.2) = true) →
      (runLoop net output entries fs).successful = 0 ∧
      (runLoop net output entries fs).failed = 0 ∧
      (runLoop net output entries fs).skipped = entries.length ∧
      ∀ e ∈ (runLoop net output entries fs).events,
        ∃ pth, e = Event.skip pth
  | [], fs, _ => ⟨rfl, rfl, rfl, by intro e he; simp [runLoop] at he⟩
  | (url, source_name) :: rest, fs, h => by
    have h0 : pathExists fs (localTarget url output source_name) = true :=
      h (url, source_name) (List.mem_cons_self _ _)
    have hex : pathExists
        (create_directory_structure url output source_name fs).2
        (create_directory_structure url output source_name fs).1 = true := by
      rw [create_fst_eq, create_snd_eq]
      exact pathExists_makedirs _ h0
    have hrest : ∀ p ∈ rest,
        pathExists (create_directory_structure url output source_name fs).2
          (localTarget p.1 output p.2) = true := by
      intro p hp
      rw [create_snd_eq]
      exact pathExists_makedirs _ (h p (List.mem_cons_of_mem _ hp))
    obtain ⟨ih1, ih2, ih3, ih4⟩ := runLoop_all_exist net output rest
      (create_directory_structure url output source_name fs).2 hrest
    simp only [runLoop, hex, if_true]
    refine ⟨ih1, ih2, by rw [ih3]; rfl, ?_⟩
    intro e he
    rcases List.mem_cons.mp he with rfl | he2
    · exact ⟨_, rfl⟩
    · exact ih4 e he2

/-- Claim C2: if the local target of every aggregated link already
exists when the Orchestrator's iterate-download loop runs, the run ends
with `successful = 0`, `failed = 0`, and `skipped` equal to the number
of aggregated links, and every event of the run is a skip — nothing is
re-downloaded. -/
theorem c2_rerun_idempotent (net : Net) (output : String)
    (url_tuples : Finset (String × String)) (fs : FS)
    (h : ∀ p ∈ url_tuples,
      pathExists fs (localTarget p.1 output p.2) = true) :
    (mainLoop net output url_tuples fs).successful = 0 ∧
    (mainLoop net output url_tuples fs).failed = 0 ∧
    (mainLoop net output url_tuples fs).skipped = url_tuples.card ∧
    ∀ e ∈ (mainLoop net output url_tuples fs).events,
      ∃ pth, e = Event.skip pth := by
  have hlist : ∀ p ∈ sortPairs url_tuples,
      pathExists (makedirs fs output) (localTarget p.1 output p.2)
        = true := by
    intro p hp
    exact pathExists_makedirs _ (h p (Finset.mem_sort pairLe |>.mp hp))
  obtain ⟨h1, h2, h3, h4⟩ := runLoop_all_exist net output
    (sortPairs url_tuples) (makedirs fs output) hlist
  refine ⟨h1, h2, ?_, h4⟩
  rw [show (mainLoop net output url_tuples fs).skipped
      = (runLoop net output (sortPairs url_tuples)
          (makedirs fs output)).skipped from rfl, h3]
  exact Finset.length_sort pairLe

/-- Witness for C2 on a one-element aggregated set whose target is
already on disk. -/
theorem c2_witness :
    (mainLoop (fun _ => HttpResponse.failure) "out"
      {("https://docs.claude.com/en/api.md", "claude-docs")}
      ⟨[], [(localTarget "https://docs.claude.com/en/api.md" "out"
        "claude-docs", "x")]⟩).successful = 0 ∧
    (mainLoop (fun _ => HttpResponse.failure) "out"
      {("https://docs.claude.com/en/api.md", "claude-docs")}
      ⟨[], [(localTarget "https://docs.claude.com/en/api.md" "out"
        "claude-docs", "x")]⟩).failed = 0 ∧
    (mainLoop (fun _ => HttpResponse.failure) "out"
      {("https://docs.claude.com/en/api.md", "claude-docs")}
      ⟨[], [(localTarget "https://docs.claude.com/en/api.md" "out"
        "claude-docs", "x")]⟩).skipped
      = ({("https://docs.claude.com/en/api.md", "claude-docs")} :
          Finset (String × String)).card ∧
    ∀ e ∈ (mainLoop (fun _ => HttpResponse.failure) "out"
      {("https://docs.claude.com/en/api.md", "claude-docs")}
      ⟨[], [(localTarget "https://docs.claude.com/en/api.md" "out"
        "claude-docs", "x")]⟩).events, ∃ pth, e = Event.skip pth :=
  c2_rerun_idempotent (fun _ => HttpResponse.failure) "out"
    {("https://docs.claude.com/en/api.md", "claude-docs")}
    ⟨[], [(localTarget "https://docs.claude.com/en/api.md" "out"
      "claude-docs", "x")]⟩
    (by decide)
